import Mathlib

/-!
Shallow embedding of `feeds.py` (archweb syndication feeds): the
freshness cache (`retrieve_package_latest` / `refresh_package_latest` and
their news twins), the conditional-request helpers (`package_etag`,
`news_etag`, `package_last_modified`), and the feed item selectors
(`PackageFeed.get_object`, `PackageFeed.title`, `PackageFeed.description`,
`NewsFeed.items`).

Modelling conventions:
* timestamps (Python `datetime` values) are `Nat`; a Python `datetime` is
  always truthy, so `if latest:` on a cache lookup is a `match` on the
  `Option` returned by the cache;
* the Django cache is the single entry stored under
  `CACHE_PACKAGE_KEY` (resp. `CACHE_NEWS_KEY`): an `Option CacheEntry`
  holding the value and its absolute expiry instant; `cache.get` at
  instant `now` yields the value only while `now` is before the expiry;
* the database is a list of records; the aggregate query
  `objects.values(...).latest(...)` is `maxTs` over the mapped timestamp
  column, raising `DoesNotExist` (represented by `Option.none` /
  `PyExc.doesNotExist`) on an empty table; every issued aggregate query
  increments `queryCount`, the call-count instrumentation on the storage
  collaborator;
* Python's `str` on a datetime and `md5_constructor(...).hexdigest()` are
  external collaborators, passed in as function parameters `strTs` and
  `md5hex`.
-/

/-- Python exceptions surfaced by the embedded code. -/
inductive PyExc where
  | doesNotExist
  | multipleObjectsReturned
  | keyError
deriving DecidableEq, Repr

abbrev Timestamp := Nat

/-- `CACHE_TIMEOUT = 1800`. -/
def CACHE_TIMEOUT : Nat := 1800

/-- One Django cache slot: stored value plus absolute expiry instant. -/
structure CacheEntry where
  value : Timestamp
  expiresAt : Nat
deriving DecidableEq, Repr

/-- `cache.get(key)` at instant `now`: a stored entry is served only while
`now` is strictly before its expiry; otherwise the lookup misses. -/
def cache_get (c : Option CacheEntry) (now : Nat) : Option Timestamp :=
  match c with
  | some e => if now < e.expiresAt then some e.value else none
  | none => none

/-- Maximum of a list of timestamps; `none` on the empty list.  This is the
aggregate `objects.values(col).latest(col)[col]`, whose `DoesNotExist` on an
empty table is the `none` case. -/
def maxTs : List Timestamp → Option Timestamp
  | [] => none
  | t :: ts =>
    match maxTs ts with
    | none => some t
    | some m => some (max t m)

/-- `main.models.Arch`: a name and the architecture-agnostic flag. -/
structure Arch where
  name : String
  agnostic : Bool
deriving DecidableEq, Repr

/-- `main.models.Repo`: a name. -/
structure Repo where
  name : String
deriving DecidableEq, Repr

/-- `main.models.Package`: the fields `feeds.py` reads. -/
structure Package where
  last_update : Timestamp
  arch : Arch
  repo : Repo
deriving DecidableEq, Repr

/-- `news.models.News`: the fields `feeds.py` reads. -/
structure News where
  id : Nat
  postdate : Timestamp
  last_modified : Timestamp
deriving DecidableEq, Repr

/-- State touched by the package-side cache functions: the `Package` table,
the `CACHE_PACKAGE_KEY` slot, and the aggregate-query counter. -/
structure PkgState where
  packages : List Package
  cache : Option CacheEntry
  queryCount : Nat
deriving DecidableEq, Repr

/-- State touched by the news-side cache functions. -/
structure NewsState where
  news : List News
  cache : Option CacheEntry
  queryCount : Nat
deriving DecidableEq, Repr

/-- `retrieve_package_latest()` at instant `now`: return the cached value on
a hit; on a miss run the aggregate query, cache and return its result, or
return `None` when the table is empty (`Package.DoesNotExist` is caught). -/
def retrieve_package_latest (st : PkgState) (now : Nat) :
    Option Timestamp × PkgState :=
  match cache_get st.cache now with
  | some latest => (some latest, st)
  | none =>
    let queried := { st with queryCount := st.queryCount + 1 }
    match maxTs (st.packages.map Package.last_update) with
    | some latest =>
        (some latest,
         { queried with cache := some ⟨latest, now + CACHE_TIMEOUT⟩ })
    | none => (none, queried)

/-- `refresh_package_latest(**kwargs)` at instant `now`: recompute the
maximum `last_update` (without reading the cache) and unconditionally store
it with a fresh TTL; `Package.DoesNotExist` propagates. -/
def refresh_package_latest (st : PkgState) (now : Nat) :
    Except PyExc PkgState :=
  match maxTs (st.packages.map Package.last_update) with
  | some latest =>
      .ok { st with
              cache := some ⟨latest, now + CACHE_TIMEOUT⟩,
              queryCount := st.queryCount + 1 }
  | none => .error .doesNotExist

/-- `package_etag(request, *args, **kwargs)`: hash of `str(kwargs)`
concatenated with `str(latest)` when a latest timestamp exists, else
`None`.  `md5hex` models `md5_constructor(...).hexdigest()` and `strTs`
models `str` on a datetime; `kwargs` is the already-stringified `kwargs`. -/
def package_etag (md5hex : String → String) (strTs : Timestamp → String)
    (kwargs : String) (st : PkgState) (now : Nat) :
    Option String × PkgState :=
  let r := retrieve_package_latest st now
  match r.1 with
  | some latest => (some (md5hex (kwargs ++ strTs latest)), r.2)
  | none => (none, r.2)

/-- `package_last_modified(request, *args, **kwargs)`. -/
def package_last_modified (st : PkgState) (now : Nat) :
    Option Timestamp × PkgState :=
  retrieve_package_latest st now

/-- `retrieve_news_latest()` at instant `now`. -/
def retrieve_news_latest (st : NewsState) (now : Nat) :
    Option Timestamp × NewsState :=
  match cache_get st.cache now with
  | some latest => (some latest, st)
  | none =>
    let queried := { st with queryCount := st.queryCount + 1 }
    match maxTs (st.news.map News.last_modified) with
    | some latest =>
        (some latest,
         { queried with cache := some ⟨latest, now + CACHE_TIMEOUT⟩ })
    | none => (none, queried)

/-- `refresh_news_latest(**kwargs)` at instant `now`. -/
def refresh_news_latest (st : NewsState) (now : Nat) :
    Except PyExc NewsState :=
  match maxTs (st.news.map News.last_modified) with
  | some latest =>
      .ok { st with
              cache := some ⟨latest, now + CACHE_TIMEOUT⟩,
              queryCount := st.queryCount + 1 }
  | none => .error .doesNotExist

/-- `news_etag(request, *args, **kwargs)`: hash of `str(latest)` alone. -/
def news_etag (md5hex : String → String) (strTs : Timestamp → String)
    (st : NewsState) (now : Nat) : Option String × NewsState :=
  let r := retrieve_news_latest st now
  match r.1 with
  | some latest => (some (md5hex (strTs latest)), r.2)
  | none => (none, r.2)

/-- The package table starts empty, no cache entry, no queries issued. -/
def initialPkgState : PkgState := ⟨[], none, 0⟩

/-- One committed write of `p` at instant `now` followed by the
`post_save`-connected `refresh_package_latest`.  The `.error` fallback is
unreachable: the table is non-empty right after a write, exactly the
assumption the source makes. -/
def writeStep (st : PkgState) (p : Package) (now : Nat) : PkgState :=
  let committed := { st with packages := p :: st.packages }
  match refresh_package_latest committed now with
  | .ok st' => st'
  | .error _ => committed

/-- Run a sequence of timed writes, each followed by its signal handler. -/
def runWrites (st : PkgState) : List (Package × Nat) → PkgState
  | [] => st
  | (p, t) :: rest => runWrites (writeStep st p t) rest

/-- The cache, when it holds an entry, holds exactly the current aggregate
maximum: the invariant the write-triggered refresh maintains. -/
def goodCache (st : PkgState) : Prop :=
  ∀ e, st.cache = some e →
    maxTs (st.packages.map Package.last_update) = some e.value

def archX : Arch := ⟨"x86_64", false⟩

def repoCore : Repo := ⟨"core"⟩

/-- An injective stand-in for the datetime stringification collaborator,
used by concrete witnesses. -/
def strUnary (t : Timestamp) : String := String.mk (List.replicate t 'x')

/-- The entity tables `get_object` resolves names against, plus the package
table it queries. -/
structure World where
  archs : List Arch
  repos : List Repo
  packages : List Package
deriving DecidableEq, Repr

/-- `Arch.objects.get(name=...)`: exactly one match, else `DoesNotExist`
(or `MultipleObjectsReturned`). -/
def objects_get_arch (w : World) (name : String) : Except PyExc Arch :=
  match w.archs.filter (fun a => decide (a.name = name)) with
  | [] => .error .doesNotExist
  | [a] => .ok a
  | _ :: _ :: _ => .error .multipleObjectsReturned

/-- `Repo.objects.get(name=...)`. -/
def objects_get_repo (w : World) (name : String) : Except PyExc Repo :=
  match w.repos.filter (fun r => decide (r.name = name)) with
  | [] => .error .doesNotExist
  | [r] => .ok r
  | _ :: _ :: _ => .error .multipleObjectsReturned

/-- `order_by(-last_update)`: `a` may precede `b` when `b`'s `last_update`
is no larger. -/
def pkgGE (a b : Package) : Prop := b.last_update ≤ a.last_update

instance : DecidableRel pkgGE := fun a b =>
  inferInstanceAs (Decidable (b.last_update ≤ a.last_update))

instance : IsTotal Package pkgGE :=
  ⟨fun a b => Nat.le_total b.last_update a.last_update⟩

instance : IsTrans Package pkgGE :=
  ⟨fun _ _ _ hab hbc => le_trans hbc hab⟩

/-- The dict `obj` built by `PackageFeed.get_object`: presence of the
`arch` / `repo` keys is an `Option`. -/
structure FeedObject where
  arch : Option Arch
  repo : Option Repo
  qs : List Package
deriving DecidableEq, Repr

/-- `PackageFeed.get_object(request, arch, repo)`: order the package table
descending by `last_update`; with a named architecture keep packages of that
architecture or of an agnostic one and record the arch; with a named
repository further keep only that repository and record it; then slice the
first 50. -/
def PackageFeed.get_object (w : World) (arch repo : String) :
    Except PyExc FeedObject :=
  let qs0 := List.insertionSort pkgGE w.packages
  let s1 : Except PyExc (List Package × Option Arch) :=
    if arch ≠ "" then
      match objects_get_arch w arch with
      | .ok a =>
          .ok (qs0.filter (fun p => decide (p.arch = a) || p.arch.agnostic),
               some a)
      | .error e => .error e
    else .ok (qs0, none)
  match s1 with
  | .error e => .error e
  | .ok (qs1, archOpt) =>
    let s2 : Except PyExc (List Package × Option Repo) :=
      if repo ≠ "" then
        match objects_get_repo w repo with
        | .ok r => .ok (qs1.filter (fun p => decide (p.repo = r)), some r)
        | .error e => .error e
      else .ok (qs1, none)
    match s2 with
    | .error e => .error e
    | .ok (qs2, repoOpt) =>
        .ok { arch := archOpt, repo := repoOpt, qs := qs2.take 50 }

/-- Python `str.lower()` as used on the ASCII arch/repo names: lowercase
every character. -/
def strLower (s : String) : String := String.mk (s.data.map Char.toLower)

/-- `PackageFeed.title(obj)`: the repo branch reads `obj[arch]`
unconditionally, a `KeyError` when the key is absent. -/
def PackageFeed.title (obj : FeedObject) : Except PyExc String :=
  let s := "Arch Linux: Recent package updates"
  match obj.repo with
  | some r =>
    match obj.arch with
    | some a => .ok (s ++ " (" ++ a.name ++ " [" ++ strLower r.name ++ "])")
    | none => .error .keyError
  | none =>
    match obj.arch with
    | some a => .ok (s ++ " (" ++ a.name ++ ")")
    | none => .ok s

/-- `PackageFeed.description(obj)`. -/
def PackageFeed.description (obj : FeedObject) : String :=
  let s := "Recently updated packages in the Arch Linux package repositories"
  let s :=
    match obj.arch with
    | some a =>
      let s := s ++ " for the \x27" ++ strLower a.name ++ "\x27 architecture"
      if a.agnostic then s else s ++ " (including \x27any\x27 packages)"
    | none => s
  let s :=
    match obj.repo with
    | some r => s ++ " in the [" ++ strLower r.name ++ "] repository"
    | none => s
  s ++ "."

/-- `order_by(-postdate, -id)`: descending lexicographic order on the pair
`(postdate, id)`. -/
def newsGE (a b : News) : Prop :=
  b.postdate < a.postdate ∨ (b.postdate = a.postdate ∧ b.id ≤ a.id)

instance : DecidableRel newsGE := fun _ _ =>
  inferInstanceAs (Decidable (_ ∨ _))

instance : IsTotal News newsGE := ⟨by
  intro a b
  rcases Nat.lt_trichotomy a.postdate b.postdate with h | h | h
  · exact Or.inr (Or.inl h)
  · rcases Nat.le_total b.id a.id with hid | hid
    · exact Or.inl (Or.inr ⟨h.symm, hid⟩)
    · exact Or.inr (Or.inr ⟨h, hid⟩)
  · exact Or.inl (Or.inl h)⟩

instance : IsTrans News newsGE := ⟨by
  intro a b c hab hbc
  rcases hab with h1 | ⟨e1, i1⟩
  · rcases hbc with h2 | ⟨e2, i2⟩
    · exact Or.inl (lt_trans h2 h1)
    · exact Or.inl (by rw [e2]; exact h1)
  · rcases hbc with h2 | ⟨e2, i2⟩
    · exact Or.inl (by rw [← e1]; exact h2)
    · exact Or.inr ⟨e2.trans e1, le_trans i2 i1⟩⟩

/-- `NewsFeed.items(self)`: the news table ordered by `(-postdate, -id)`,
first 10. -/
def NewsFeed.items (newsTable : List News) : List News :=
  (List.insertionSort newsGE newsTable).take 10

instance {ε α : Type} [DecidableEq ε] [DecidableEq α] :
    DecidableEq (Except ε α) := fun x y =>
  match x, y with
  | .error e₁, .error e₂ =>
    if h : e₁ = e₂ then .isTrue (h ▸ rfl)
    else .isFalse (fun hh => h (by injection hh))
  | .error _, .ok _ => .isFalse (fun hh => Except.noConfusion hh)
  | .ok _, .error _ => .isFalse (fun hh => Except.noConfusion hh)
  | .ok a₁, .ok a₂ =>
    if h : a₁ = a₂ then .isTrue (h ▸ rfl)
    else .isFalse (fun hh => h (by injection hh))

def archX86 : Arch := ⟨"x86", false⟩

def archAny : Arch := ⟨"any", true⟩

def archArm : Arch := ⟨"arm", false⟩

def repoExtra : Repo := ⟨"extra"⟩

def pkgP1 : Package := ⟨10, archX86, repoCore⟩

def pkgP2 : Package := ⟨20, archAny, repoCore⟩

def pkgP3 : Package := ⟨30, archArm, repoCore⟩

def wC5 : World :=
  ⟨[archX86, archAny, archArm], [repoCore, repoExtra], [pkgP1, pkgP2, pkgP3]⟩

def obj1C5 : FeedObject := ⟨some archX86, none, [pkgP2, pkgP1]⟩

def obj2C5 : FeedObject := ⟨some archX86, some repoCore, [pkgP2, pkgP1]⟩

/-- The title the spec's words prescribe when both filters are given: base
string plus the architecture name lowercased and the repository name
lowercased.  Kept separate from `PackageFeed.title` to compare the two. -/
def specTitleBoth (a : Arch) (r : Repo) : String :=
  "Arch Linux: Recent package updates" ++ " (" ++ strLower a.name ++ " ["
    ++ strLower r.name ++ "])"

/-- The description the spec's words prescribe when both filters are given:
base string, architecture name lowercased, the agnostic-inclusion note when
the architecture is not agnostic, repository name lowercased. -/
def specDescriptionBoth (a : Arch) (r : Repo) : String :=
  "Recently updated packages in the Arch Linux package repositories"
    ++ " for the \x27" ++ strLower a.name ++ "\x27 architecture"
    ++ (if a.agnostic then "" else " (including \x27any\x27 packages)")
    ++ " in the [" ++ strLower r.name ++ "] repository" ++ "."

/-- The description the spec's words prescribe when only the architecture
filter is given. -/
def specDescriptionArchOnly (a : Arch) : String :=
  "Recently updated packages in the Arch Linux package repositories"
    ++ " for the \x27" ++ strLower a.name ++ "\x27 architecture"
    ++ (if a.agnostic then "" else " (including \x27any\x27 packages)")
    ++ "."

def wC9 : World := ⟨[archX86], [repoCore], []⟩

theorem maxTs_eq_none {l : List Timestamp} : maxTs l = none ↔ l = [] := by
  cases l with
  | nil => simp [maxTs]
  | cons t ts => cases h : maxTs ts <;> simp [maxTs, h]

theorem maxTs_cons_isSome (t : Timestamp) (ts : List Timestamp) :
    ∃ m, maxTs (t :: ts) = some m := by
  cases h : maxTs ts with
  | none => exact ⟨t, by simp [maxTs, h]⟩
  | some mm => exact ⟨max t mm, by simp [maxTs, h]⟩

theorem maxTs_le {l : List Timestamp} {m : Timestamp} (h : maxTs l = some m) :
    ∀ x ∈ l, x ≤ m := by
  induction l generalizing m with
  | nil => simp [maxTs] at h
  | cons t ts ih =>
    intro x hx
    cases hts : maxTs ts with
    | none =>
      simp only [maxTs, hts, Option.some.injEq] at h
      subst h
      rcases List.mem_cons.mp hx with rfl | hx'
      · exact le_refl _
      · rw [maxTs_eq_none.mp hts] at hx'
        cases hx'
    | some mm =>
      simp only [maxTs, hts, Option.some.injEq] at h
      subst h
      rcases List.mem_cons.mp hx with rfl | hx'
      · exact le_max_left _ _
      · exact le_trans (ih hts x hx') (le_max_right _ _)

theorem maxTs_mem {l : List Timestamp} {m : Timestamp} (h : maxTs l = some m) :
    m ∈ l := by
  induction l generalizing m with
  | nil => simp [maxTs] at h
  | cons t ts ih =>
    cases hts : maxTs ts with
    | none =>
      simp only [maxTs, hts, Option.some.injEq] at h
      subst h
      exact List.mem_cons_self _ _
    | some mm =>
      simp only [maxTs, hts, Option.some.injEq] at h
      subst h
      rcases max_choice t mm with hc | hc
      · rw [hc]; exact List.mem_cons_self _ _
      · rw [hc]; exact List.mem_cons_of_mem _ (ih hts)

theorem writeStep_eq (st : PkgState) (p : Package) (now : Nat) :
    ∃ m, maxTs ((p :: st.packages).map Package.last_update) = some m ∧
      writeStep st p now =
        { packages := p :: st.packages,
          cache := some ⟨m, now + CACHE_TIMEOUT⟩,
          queryCount := st.queryCount + 1 } := by
  obtain ⟨m, hm⟩ :=
    maxTs_cons_isSome p.last_update (st.packages.map Package.last_update)
  refine ⟨m, by simpa using hm, ?_⟩
  simp only [writeStep, refresh_package_latest]
  rw [show ((p :: st.packages).map Package.last_update)
        = p.last_update :: st.packages.map Package.last_update from rfl, hm]

theorem goodCache_writeStep (st : PkgState) (p : Package) (now : Nat) :
    goodCache (writeStep st p now) := by
  obtain ⟨m, hm, heq⟩ := writeStep_eq st p now
  rw [heq]
  intro e he
  simp only [Option.some.injEq] at he
  subst he
  exact hm

theorem goodCache_runWrites (ws : List (Package × Nat)) (st : PkgState)
    (h : goodCache st) : goodCache (runWrites st ws) := by
  induction ws generalizing st with
  | nil => exact h
  | cons pt rest ih =>
    exact ih _ (goodCache_writeStep st pt.1 pt.2)

theorem runWrites_packages_mem (ws : List (Package × Nat)) (st : PkgState)
    (q : Package) :
    q ∈ (runWrites st ws).packages ↔
      q ∈ st.packages ∨ ∃ t, (q, t) ∈ ws := by
  induction ws generalizing st with
  | nil => simp [runWrites]
  | cons pt rest ih =>
    obtain ⟨p, t⟩ := pt
    obtain ⟨m, hm, heq⟩ := writeStep_eq st p t
    rw [show runWrites st ((p, t) :: rest) = runWrites (writeStep st p t) rest
          from rfl, ih, heq]
    simp only [List.mem_cons, Prod.mk.injEq]
    constructor
    · rintro (⟨rfl | hq⟩ | ⟨t', ht'⟩)
      · exact Or.inr ⟨t, Or.inl ⟨rfl, rfl⟩⟩
      · exact Or.inl hq
      · exact Or.inr ⟨t', Or.inr ht'⟩
    · rintro (hq | ⟨t', ⟨rfl, rfl⟩ | ht'⟩)
      · exact Or.inl (Or.inr hq)
      · exact Or.inl (Or.inl rfl)
      · exact Or.inr ⟨t', ht'⟩

theorem retrieve_fst_of_goodCache {st : PkgState} (h : goodCache st)
    (now : Nat) :
    (retrieve_package_latest st now).1 =
      maxTs (st.packages.map Package.last_update) := by
  unfold retrieve_package_latest
  cases hce : st.cache with
  | none =>
    cases hq : maxTs (st.packages.map Package.last_update) <;>
      simp [cache_get, hce, hq]
  | some e =>
    by_cases hexp : now < e.expiresAt
    · simp [cache_get, hce, hexp, h e hce]
    · cases hq : maxTs (st.packages.map Package.last_update) <;>
        simp [cache_get, hce, hexp, hq]

/-- C1: starting from the empty package table, after any non-empty sequence
of committed writes, each followed by the `post_save`-connected
`refresh_package_latest`, a `retrieve_package_latest` call at any instant
returns a timestamp that is ≥ the `last_update` of every record written so
far and is itself the `last_update` of one of the written records, i.e.
equals the maximum written so far. -/
theorem C1_retrieve_after_writes_is_max
    (ws : List (Package × Nat)) (now : Nat) (hne : ws ≠ []) :
    ∃ m,
      (retrieve_package_latest (runWrites initialPkgState ws) now).1
        = some m ∧
      (∀ pt ∈ ws, (Prod.fst pt).last_update ≤ m) ∧
      (∃ pt ∈ ws, (Prod.fst pt).last_update = m) := by
  have hgood : goodCache (runWrites initialPkgState ws) :=
    goodCache_runWrites ws initialPkgState
      (by intro e he; simp [initialPkgState] at he)
  cases ws with
  | nil => exact absurd rfl hne
  | cons pt rest =>
    have hmem : pt.1 ∈ (runWrites initialPkgState (pt :: rest)).packages :=
      (runWrites_packages_mem _ _ _).mpr
        (Or.inr ⟨pt.2, by rw [show (pt.1, pt.2) = pt from rfl];
                          exact List.mem_cons_self _ _⟩)
    obtain ⟨m, hm⟩ : ∃ m,
        maxTs ((runWrites initialPkgState (pt :: rest)).packages.map
          Package.last_update) = some m := by
      cases hq : maxTs ((runWrites initialPkgState (pt :: rest)).packages.map
          Package.last_update) with
      | none =>
        rw [maxTs_eq_none, List.map_eq_nil_iff] at hq
        rw [hq] at hmem
        cases hmem
      | some m => exact ⟨m, rfl⟩
    refine ⟨m, ?_, ?_, ?_⟩
    · rw [retrieve_fst_of_goodCache hgood, hm]
    · intro qt hq
      have hqmem : qt.1 ∈ (runWrites initialPkgState (pt :: rest)).packages :=
        (runWrites_packages_mem _ _ _).mpr
          (Or.inr ⟨qt.2, by rw [show (qt.1, qt.2) = qt from rfl]; exact hq⟩)
      exact maxTs_le hm _ (List.mem_map_of_mem _ hqmem)
    · obtain ⟨q, hqmem, hq⟩ := List.mem_map.mp (maxTs_mem hm)
      rcases (runWrites_packages_mem _ _ _).mp hqmem with h0 | ⟨t, ht⟩
      · simp [initialPkgState] at h0
      · exact ⟨(q, t), ht, hq⟩

theorem C1_witness :
    ∃ m,
      (retrieve_package_latest
        (runWrites initialPkgState
          [(⟨5, archX, repoCore⟩, 0), (⟨9, archX, repoCore⟩, 3)]) 100).1
        = some m ∧
      (∀ pt ∈ [((⟨5, archX, repoCore⟩ : Package), 0),
               (⟨9, archX, repoCore⟩, 3)],
        (Prod.fst pt).last_update ≤ m) ∧
      (∃ pt ∈ [((⟨5, archX, repoCore⟩ : Package), 0),
               (⟨9, archX, repoCore⟩, 3)],
        (Prod.fst pt).last_update = m) :=
  C1_retrieve_after_writes_is_max
    [(⟨5, archX, repoCore⟩, 0), (⟨9, archX, repoCore⟩, 3)] 100 (by simp)

/-- C2: whenever `refresh_package_latest` succeeds it has recomputed the
aggregate maximum (never reading the cache: its outcome is the same for
every prior cache content), stored exactly that value with a fresh TTL,
and issued exactly one storage query; a `retrieve_package_latest` call
before the TTL expires and with no intervening write returns exactly the
stored value and leaves the state untouched — in particular the query
counter is unchanged, so no further aggregate query was issued. -/
theorem C2_refresh_then_retrieve_coherent
    (st st' : PkgState) (tR now : Nat)
    (hok : refresh_package_latest st tR = .ok st')
    (hfresh : now < tR + CACHE_TIMEOUT) :
    ∃ m, maxTs (st.packages.map Package.last_update) = some m ∧
      st'.cache = some ⟨m, tR + CACHE_TIMEOUT⟩ ∧
      st'.queryCount = st.queryCount + 1 ∧
      st'.packages = st.packages ∧
      retrieve_package_latest st' now = (some m, st') ∧
      (∀ c : Option CacheEntry,
        refresh_package_latest { st with cache := c } tR = .ok st') := by
  unfold refresh_package_latest at hok
  cases hq : maxTs (st.packages.map Package.last_update) with
  | none => rw [hq] at hok; cases hok
  | some m =>
    rw [hq] at hok
    simp only [Except.ok.injEq] at hok
    subst hok
    refine ⟨m, rfl, rfl, rfl, rfl, ?_, ?_⟩
    · simp [retrieve_package_latest, cache_get, hfresh]
    · intro c
      simp [refresh_package_latest, hq]

theorem C2_witness :
    ∃ m,
      maxTs ((⟨[⟨7, archX, repoCore⟩], none, 0⟩ : PkgState).packages.map
        Package.last_update) = some m ∧
      (⟨[⟨7, archX, repoCore⟩], some ⟨7, 1800⟩, 1⟩ : PkgState).cache
        = some ⟨m, 0 + CACHE_TIMEOUT⟩ ∧
      (⟨[⟨7, archX, repoCore⟩], some ⟨7, 1800⟩, 1⟩ : PkgState).queryCount
        = (⟨[⟨7, archX, repoCore⟩], none, 0⟩ : PkgState).queryCount + 1 ∧
      (⟨[⟨7, archX, repoCore⟩], some ⟨7, 1800⟩, 1⟩ : PkgState).packages
        = (⟨[⟨7, archX, repoCore⟩], none, 0⟩ : PkgState).packages ∧
      retrieve_package_latest ⟨[⟨7, archX, repoCore⟩], some ⟨7, 1800⟩, 1⟩ 42
        = (some m, ⟨[⟨7, archX, repoCore⟩], some ⟨7, 1800⟩, 1⟩) ∧
      (∀ c : Option CacheEntry,
        refresh_package_latest
          { (⟨[⟨7, archX, repoCore⟩], none, 0⟩ : PkgState) with cache := c } 0
          = .ok ⟨[⟨7, archX, repoCore⟩], some ⟨7, 1800⟩, 1⟩) :=
  C2_refresh_then_retrieve_coherent
    ⟨[⟨7, archX, repoCore⟩], none, 0⟩ ⟨[⟨7, archX, repoCore⟩], some ⟨7, 1800⟩, 1⟩
    0 42 (by simp [refresh_package_latest, maxTs, CACHE_TIMEOUT])
    (by simp [CACHE_TIMEOUT])

/-- C3: on an empty collection with an empty cache slot,
`retrieve_package_latest` returns `None`, stores nothing in the cache (so
every later call re-queries: the query counter increments on each call),
and `package_etag` correspondingly returns `None`; likewise on the news
side for `news_etag`. -/
theorem C3_empty_collection_returns_none
    (md5hex : String → String) (strTs : Timestamp → String) (kwargs : String)
    (st : PkgState) (nst : NewsState) (now : Nat)
    (hempty : st.packages = []) (hcache : st.cache = none)
    (hnempty : nst.news = []) (hncache : nst.cache = none) :
    retrieve_package_latest st now
      = (none, { st with queryCount := st.queryCount + 1 }) ∧
    package_etag md5hex strTs kwargs st now
      = (none, { st with queryCount := st.queryCount + 1 }) ∧
    news_etag md5hex strTs nst now
      = (none, { nst with queryCount := nst.queryCount + 1 }) := by
  refine ⟨?_, ?_, ?_⟩
  · simp [retrieve_package_latest, cache_get, hcache, hempty, maxTs]
  · simp [package_etag, retrieve_package_latest, cache_get, hcache, hempty,
      maxTs]
  · simp [news_etag, retrieve_news_latest, cache_get, hncache, hnempty, maxTs]

theorem C3_witness :
    retrieve_package_latest ⟨[], none, 4⟩ 77 = (none, ⟨[], none, 5⟩) ∧
    package_etag (fun s => s) (fun t => Nat.repr t) "kw" ⟨[], none, 4⟩ 77
      = (none, ⟨[], none, 5⟩) ∧
    news_etag (fun s => s) (fun t => Nat.repr t) ⟨[], none, 2⟩ 77
      = (none, ⟨[], none, 3⟩) :=
  C3_empty_collection_returns_none (fun s => s) (fun t => Nat.repr t) "kw"
    ⟨[], none, 4⟩ ⟨[], none, 2⟩ 77 rfl rfl rfl rfl

theorem string_append_left_cancel {s a b : String} (h : s ++ a = s ++ b) :
    a = b := by
  have hd := congrArg String.data h
  simp only [String.data_append] at hd
  exact String.ext (List.append_cancel_left hd)

/-- C4: ETag determinism and sensitivity.  If two `package_etag` calls use
the same stringified request parameters and their underlying
`retrieve_package_latest` calls yield the same latest timestamp, the ETags
are identical; if the latest timestamps differ (the hash and datetime
stringification collaborators being injective), the ETags differ.  The same
holds for `news_etag`, whose hash input omits the request parameters. -/
theorem C4_etag_deterministic_and_sensitive
    (md5hex : String → String) (strTs : Timestamp → String)
    (kwargs : String) (st₁ st₂ : PkgState) (nst₁ nst₂ : NewsState)
    (n₁ n₂ : Nat) :
    ((retrieve_package_latest st₁ n₁).1 = (retrieve_package_latest st₂ n₂).1 →
      (package_etag md5hex strTs kwargs st₁ n₁).1
        = (package_etag md5hex strTs kwargs st₂ n₂).1) ∧
    (Function.Injective md5hex → Function.Injective strTs →
      ∀ t₁ t₂, (retrieve_package_latest st₁ n₁).1 = some t₁ →
        (retrieve_package_latest st₂ n₂).1 = some t₂ → t₁ ≠ t₂ →
        (package_etag md5hex strTs kwargs st₁ n₁).1
          ≠ (package_etag md5hex strTs kwargs st₂ n₂).1) ∧
    ((retrieve_news_latest nst₁ n₁).1 = (retrieve_news_latest nst₂ n₂).1 →
      (news_etag md5hex strTs nst₁ n₁).1
        = (news_etag md5hex strTs nst₂ n₂).1) ∧
    (Function.Injective md5hex → Function.Injective strTs →
      ∀ t₁ t₂, (retrieve_news_latest nst₁ n₁).1 = some t₁ →
        (retrieve_news_latest nst₂ n₂).1 = some t₂ → t₁ ≠ t₂ →
        (news_etag md5hex strTs nst₁ n₁).1
          ≠ (news_etag md5hex strTs nst₂ n₂).1) := by
  refine ⟨?_, ?_, ?_, ?_⟩
  · intro h
    simp only [package_etag, h]
    cases (retrieve_package_latest st₂ n₂).1 <;> rfl
  · intro hmd5 hstr t₁ t₂ h₁ h₂ hne h
    simp only [package_etag, h₁, h₂, Option.some.injEq] at h
    exact hne (hstr (string_append_left_cancel (hmd5 h)))
  · intro h
    simp only [news_etag, h]
    cases (retrieve_news_latest nst₂ n₂).1 <;> rfl
  · intro hmd5 hstr t₁ t₂ h₁ h₂ hne h
    simp only [news_etag, h₁, h₂, Option.some.injEq] at h
    exact hne (hstr (hmd5 h))

theorem strUnary_injective : Function.Injective strUnary := by
  intro a b h
  have := congrArg (fun s => s.data.length) h
  simpa [strUnary] using this

theorem C4_witness :
    (package_etag (fun s => s) strUnary "kw" ⟨[], some ⟨5, 100⟩, 0⟩ 0).1
      = (package_etag (fun s => s) strUnary "kw" ⟨[], some ⟨5, 100⟩, 1⟩ 0).1 ∧
    (package_etag (fun s => s) strUnary "kw" ⟨[], some ⟨5, 100⟩, 0⟩ 0).1
      ≠ (package_etag (fun s => s) strUnary "kw" ⟨[], some ⟨6, 100⟩, 0⟩ 0).1 ∧
    (news_etag (fun s => s) strUnary ⟨[], some ⟨5, 100⟩, 0⟩ 0).1
      = (news_etag (fun s => s) strUnary ⟨[], some ⟨5, 100⟩, 1⟩ 0).1 ∧
    (news_etag (fun s => s) strUnary ⟨[], some ⟨6, 100⟩, 0⟩ 0).1
      ≠ (news_etag (fun s => s) strUnary ⟨[], some ⟨5, 100⟩, 0⟩ 0).1 := by
  refine ⟨?_, ?_, ?_, ?_⟩
  · exact (C4_etag_deterministic_and_sensitive (fun s => s) strUnary "kw"
      ⟨[], some ⟨5, 100⟩, 0⟩ ⟨[], some ⟨5, 100⟩, 1⟩ ⟨[], none, 0⟩ ⟨[], none, 0⟩
      0 0).1 rfl
  · exact (C4_etag_deterministic_and_sensitive (fun s => s) strUnary "kw"
      ⟨[], some ⟨5, 100⟩, 0⟩ ⟨[], some ⟨6, 100⟩, 0⟩ ⟨[], none, 0⟩ ⟨[], none, 0⟩
      0 0).2.1 (fun _ _ h => h) strUnary_injective 5 6 rfl rfl (by decide)
  · exact (C4_etag_deterministic_and_sensitive (fun s => s) strUnary "kw"
      ⟨[], none, 0⟩ ⟨[], none, 0⟩ ⟨[], some ⟨5, 100⟩, 0⟩ ⟨[], some ⟨5, 100⟩, 1⟩
      0 0).2.2.1 rfl
  · exact (C4_etag_deterministic_and_sensitive (fun s => s) strUnary "kw"
      ⟨[], none, 0⟩ ⟨[], none, 0⟩ ⟨[], some ⟨6, 100⟩, 0⟩ ⟨[], some ⟨5, 100⟩, 0⟩
      0 0).2.2.2 (fun _ _ h => h) strUnary_injective 6 5 rfl rfl (by decide)

theorem get_object_no_filters (w : World) :
    PackageFeed.get_object w "" "" =
      .ok ⟨none, none, (List.insertionSort pkgGE w.packages).take 50⟩ := by
  simp [PackageFeed.get_object]

theorem get_object_arch_only (w : World) {an : String} {a : Arch}
    (hne : an ≠ "") (ha : objects_get_arch w an = .ok a) :
    PackageFeed.get_object w an "" =
      .ok ⟨some a, none,
        ((List.insertionSort pkgGE w.packages).filter
          (fun p => decide (p.arch = a) || p.arch.agnostic)).take 50⟩ := by
  simp [PackageFeed.get_object, hne, ha]

theorem get_object_arch_repo (w : World) {an rn : String} {a : Arch} {r : Repo}
    (hane : an ≠ "") (ha : objects_get_arch w an = .ok a)
    (hrne : rn ≠ "") (hr : objects_get_repo w rn = .ok r) :
    PackageFeed.get_object w an rn =
      .ok ⟨some a, some r,
        (((List.insertionSort pkgGE w.packages).filter
            (fun p => decide (p.arch = a) || p.arch.agnostic)).filter
          (fun p => decide (p.repo = r))).take 50⟩ := by
  simp [PackageFeed.get_object, hane, ha, hrne, hr]

theorem get_object_repo_only (w : World) {rn : String} {r : Repo}
    (hrne : rn ≠ "") (hr : objects_get_repo w rn = .ok r) :
    PackageFeed.get_object w "" rn =
      .ok ⟨none, some r,
        ((List.insertionSort pkgGE w.packages).filter
          (fun p => decide (p.repo = r))).take 50⟩ := by
  simp [PackageFeed.get_object, hrne, hr]

theorem get_object_arch_error (w : World) {an : String} (rn : String)
    {e : PyExc} (hne : an ≠ "") (ha : objects_get_arch w an = .error e) :
    PackageFeed.get_object w an rn = .error e := by
  simp [PackageFeed.get_object, hne, ha]

theorem get_object_repo_error_no_arch (w : World) {rn : String} {e : PyExc}
    (hrne : rn ≠ "") (hr : objects_get_repo w rn = .error e) :
    PackageFeed.get_object w "" rn = .error e := by
  simp [PackageFeed.get_object, hrne, hr]

theorem get_object_repo_error_arch_ok (w : World) {an rn : String} {a : Arch}
    {e : PyExc} (hane : an ≠ "") (ha : objects_get_arch w an = .ok a)
    (hrne : rn ≠ "") (hr : objects_get_repo w rn = .error e) :
    PackageFeed.get_object w an rn = .error e := by
  simp [PackageFeed.get_object, hane, ha, hrne, hr]

theorem get_object_ok_shape {w : World} {an rn : String} {obj : FeedObject}
    (h : PackageFeed.get_object w an rn = .ok obj) :
    ∃ sel : Package → Bool,
      obj.qs = ((List.insertionSort pkgGE w.packages).filter sel).take 50 := by
  by_cases hane : an = "" <;> by_cases hrne : rn = ""
  · subst hane; subst hrne
    rw [get_object_no_filters] at h
    injection h with h
    subst h
    exact ⟨fun _ => true, by simp⟩
  · subst hane
    cases hr : objects_get_repo w rn with
    | ok r =>
      rw [get_object_repo_only w hrne hr] at h
      injection h with h
      subst h
      exact ⟨_, rfl⟩
    | error e =>
      rw [get_object_repo_error_no_arch w hrne hr] at h
      exact Except.noConfusion h
  · subst hrne
    cases ha : objects_get_arch w an with
    | ok a =>
      rw [get_object_arch_only w hane ha] at h
      injection h with h
      subst h
      exact ⟨_, rfl⟩
    | error e =>
      rw [get_object_arch_error w "" hane ha] at h
      exact Except.noConfusion h
  · cases ha : objects_get_arch w an with
    | error e =>
      rw [get_object_arch_error w rn hane ha] at h
      exact Except.noConfusion h
    | ok a =>
      cases hr : objects_get_repo w rn with
      | error e =>
        rw [get_object_repo_error_arch_ok w hane ha hrne hr] at h
        exact Except.noConfusion h
      | ok r =>
        rw [get_object_arch_repo w hane ha hrne hr] at h
        injection h with h
        subst h
        exact ⟨_, by rw [List.filter_filter]⟩

theorem sorted_take_dominates_rest {l : List Package} (hs : l.Sorted pkgGE)
    (n : Nat) :
    ∀ p ∈ l.take n, ∀ q ∈ l, q ∉ l.take n → pkgGE p q := by
  intro p hp q hq hqn
  have hsplit : (l.take n ++ l.drop n).Pairwise pkgGE := by
    rw [List.take_append_drop]; exact hs
  have hq' : q ∈ l.drop n := by
    have hq2 : q ∈ l.take n ++ l.drop n := by
      rw [List.take_append_drop]; exact hq
    rcases List.mem_append.mp hq2 with h | h
    · exact absurd h hqn
    · exact h
  exact (List.pairwise_append.mp hsplit).2.2 p hp q hq'

/-- C5: when the architecture name resolves to `a`, the feed query keeps
exactly the packages whose architecture is `a` OR whose architecture is
agnostic (every such package appears whenever the matching set fits the
50-item slice); a repository filter is a further AND restriction on top of
that condition. -/
theorem C5_arch_or_agnostic_repo_and
    (w : World) (an rn : String) (a : Arch) (r : Repo)
    (hane : an ≠ "") (ha : objects_get_arch w an = .ok a)
    (hrne : rn ≠ "") (hr : objects_get_repo w rn = .ok r) :
    (∀ obj, PackageFeed.get_object w an "" = .ok obj →
      (∀ p ∈ obj.qs, p.arch = a ∨ p.arch.agnostic = true) ∧
      ((w.packages.filter
          (fun p => decide (p.arch = a) || p.arch.agnostic)).length ≤ 50 →
        ∀ p ∈ w.packages, p.arch = a ∨ p.arch.agnostic = true →
          p ∈ obj.qs)) ∧
    (∀ obj, PackageFeed.get_object w an rn = .ok obj →
      (∀ p ∈ obj.qs, (p.arch = a ∨ p.arch.agnostic = true) ∧ p.repo = r) ∧
      ((w.packages.filter (fun p =>
          (decide (p.arch = a) || p.arch.agnostic)
            && decide (p.repo = r))).length ≤ 50 →
        ∀ p ∈ w.packages, p.arch = a ∨ p.arch.agnostic = true →
          p.repo = r → p ∈ obj.qs)) := by
  constructor
  · intro obj hobj
    rw [get_object_arch_only w hane ha] at hobj
    injection hobj with hobj
    subst hobj
    constructor
    · intro p hp
      have hpF := List.mem_of_mem_take hp
      have hcond := (List.mem_filter.mp hpF).2
      simpa [decide_eq_true_eq] using hcond
    · intro hlen p hpw hcond
      have hFlen : ((List.insertionSort pkgGE w.packages).filter
            (fun p => decide (p.arch = a) || p.arch.agnostic)).length
          = (w.packages.filter
            (fun p => decide (p.arch = a) || p.arch.agnostic)).length :=
        (List.Perm.filter _ (List.perm_insertionSort pkgGE w.packages)).length_eq
      show p ∈ ((List.insertionSort pkgGE w.packages).filter
        (fun p => decide (p.arch = a) || p.arch.agnostic)).take 50
      rw [List.take_of_length_le (by rw [hFlen]; exact hlen)]
      refine List.mem_filter.mpr ⟨by simpa using hpw, ?_⟩
      simp only [Bool.or_eq_true, decide_eq_true_eq]
      exact hcond
  · intro obj hobj
    rw [get_object_arch_repo w hane ha hrne hr] at hobj
    injection hobj with hobj
    subst hobj
    constructor
    · intro p hp
      have hpF := List.mem_of_mem_take hp
      have h2 := List.mem_filter.mp hpF
      have h1 := List.mem_filter.mp h2.1
      constructor
      · simpa [decide_eq_true_eq] using h1.2
      · simpa [decide_eq_true_eq] using h2.2
    · intro hlen p hpw hca hcr
      have hcomb : ((List.insertionSort pkgGE w.packages).filter
            (fun p => decide (p.arch = a) || p.arch.agnostic)).filter
            (fun p => decide (p.repo = r))
          = (List.insertionSort pkgGE w.packages).filter
            (fun p => decide (p.repo = r)
              && (decide (p.arch = a) || p.arch.agnostic)) :=
        List.filter_filter _ _
      have hlen2 : (((List.insertionSort pkgGE w.packages).filter
            (fun p => decide (p.arch = a) || p.arch.agnostic)).filter
            (fun p => decide (p.repo = r))).length
          = (w.packages.filter (fun p =>
              (decide (p.arch = a) || p.arch.agnostic)
                && decide (p.repo = r))).length := by
        rw [hcomb,
          (List.Perm.filter _
            (List.perm_insertionSort pkgGE w.packages)).length_eq]
        congr 1
        apply List.filter_congr
        intro x _
        exact Bool.and_comm _ _
      show p ∈ (((List.insertionSort pkgGE w.packages).filter
        (fun p => decide (p.arch = a) || p.arch.agnostic)).filter
        (fun p => decide (p.repo = r))).take 50
      rw [List.take_of_length_le (by rw [hlen2]; exact hlen)]
      refine List.mem_filter.mpr
        ⟨List.mem_filter.mpr ⟨by simpa using hpw, ?_⟩, ?_⟩
      · simp only [Bool.or_eq_true, decide_eq_true_eq]
        exact hca
      · simp only [decide_eq_true_eq]
        exact hcr

theorem C5_witness :
    (∀ p ∈ obj1C5.qs, p.arch = archX86 ∨ p.arch.agnostic = true) ∧
    (∀ p ∈ wC5.packages, p.arch = archX86 ∨ p.arch.agnostic = true →
      p ∈ obj1C5.qs) ∧
    (∀ p ∈ obj2C5.qs,
      (p.arch = archX86 ∨ p.arch.agnostic = true) ∧ p.repo = repoCore) ∧
    (∀ p ∈ wC5.packages, p.arch = archX86 ∨ p.arch.agnostic = true →
      p.repo = repoCore → p ∈ obj2C5.qs) := by
  have h := C5_arch_or_agnostic_repo_and wC5 "x86" "core" archX86 repoCore
    (by decide) (by decide) (by decide) (by decide)
  have h1 := h.1 obj1C5 (by decide)
  have h2 := h.2 obj2C5 (by decide)
  exact ⟨h1.1, h1.2 (by decide), h2.1, h2.2 (by decide)⟩

/-- C6: every successful `get_object` result is sorted descending by
`last_update` and holds at most 50 items; it is the 50-item prefix of the
ordered filtered list, its length is the minimum of 50 and the number of
matching packages, and every matching package it omits has a
`last_update` no larger than any item it keeps. -/
theorem C6_qs_sorted_and_truncated (w : World) (an rn : String)
    (obj : FeedObject) (h : PackageFeed.get_object w an rn = .ok obj) :
    obj.qs.Sorted pkgGE ∧
    obj.qs.length ≤ 50 ∧
    ∃ sel : Package → Bool,
      obj.qs = ((List.insertionSort pkgGE w.packages).filter sel).take 50 ∧
      obj.qs.length = min 50 (w.packages.filter sel).length ∧
      (∀ p ∈ obj.qs, ∀ q ∈ w.packages, sel q = true → q ∉ obj.qs →
        q.last_update ≤ p.last_update) := by
  obtain ⟨sel, hsel⟩ := get_object_ok_shape h
  have hFsorted :
      ((List.insertionSort pkgGE w.packages).filter sel).Sorted pkgGE :=
    List.Pairwise.filter sel (List.sorted_insertionSort pkgGE w.packages)
  refine ⟨?_, ?_, sel, hsel, ?_, ?_⟩
  · rw [hsel]
    exact List.Pairwise.sublist (List.take_sublist _ _) hFsorted
  · rw [hsel]
    exact List.length_take_le _ _
  · rw [hsel, List.length_take]
    congr 1
    exact (List.Perm.filter sel
      (List.perm_insertionSort pkgGE w.packages)).length_eq
  · intro p hp q hq hselq hqn
    have hqF : q ∈ (List.insertionSort pkgGE w.packages).filter sel :=
      List.mem_filter.mpr ⟨by simpa using hq, hselq⟩
    rw [hsel] at hp hqn
    exact sorted_take_dominates_rest hFsorted 50 p hp q hqF hqn

theorem C6_witness :
    (⟨none, none, [pkgP3, pkgP2, pkgP1]⟩ : FeedObject).qs.Sorted pkgGE ∧
    (⟨none, none, [pkgP3, pkgP2, pkgP1]⟩ : FeedObject).qs.length ≤ 50 ∧
    ∃ sel : Package → Bool,
      (⟨none, none, [pkgP3, pkgP2, pkgP1]⟩ : FeedObject).qs
        = ((List.insertionSort pkgGE wC5.packages).filter sel).take 50 ∧
      (⟨none, none, [pkgP3, pkgP2, pkgP1]⟩ : FeedObject).qs.length
        = min 50 (wC5.packages.filter sel).length ∧
      (∀ p ∈ (⟨none, none, [pkgP3, pkgP2, pkgP1]⟩ : FeedObject).qs,
        ∀ q ∈ wC5.packages, sel q = true →
          q ∉ (⟨none, none, [pkgP3, pkgP2, pkgP1]⟩ : FeedObject).qs →
          q.last_update ≤ p.last_update) :=
  C6_qs_sorted_and_truncated wC5 "" "" ⟨none, none, [pkgP3, pkgP2, pkgP1]⟩
    (by decide)

/-- C7: `NewsFeed.items` holds at most 10 items, ordered descending by the
pair `(postdate, id)`; for two kept items with equal `postdate` the one
with the larger `id` comes first. -/
theorem C7_news_items_sorted (tbl : List News) :
    (NewsFeed.items tbl).length ≤ 10 ∧
    (NewsFeed.items tbl).Sorted newsGE ∧
    (NewsFeed.items tbl).Pairwise
      (fun x y => x.postdate = y.postdate → y.id ≤ x.id) := by
  have hsorted : (NewsFeed.items tbl).Sorted newsGE :=
    List.Pairwise.sublist (List.take_sublist _ _)
      (List.sorted_insertionSort newsGE tbl)
  refine ⟨List.length_take_le _ _, hsorted, ?_⟩
  refine List.Pairwise.imp ?_ hsorted
  intro x y hxy heq
  rcases hxy with h | ⟨_, hid⟩
  · rw [heq] at h
    exact absurd h (lt_irrefl _)
  · exact hid

theorem C7_witness :
    (NewsFeed.items [⟨5, 3, 0⟩, ⟨7, 3, 0⟩]).length ≤ 10 ∧
    (NewsFeed.items [⟨5, 3, 0⟩, ⟨7, 3, 0⟩]).Sorted newsGE ∧
    (NewsFeed.items [⟨5, 3, 0⟩, ⟨7, 3, 0⟩]).Pairwise
      (fun x y => x.postdate = y.postdate → y.id ≤ x.id) :=
  C7_news_items_sorted [⟨5, 3, 0⟩, ⟨7, 3, 0⟩]

/-- C8 counterexample: for an architecture named ARM with repository Core,
the code's title keeps the architecture name verbatim, so it differs from
the spec's claimed title, which lowercases it. -/
theorem C8_counterexample :
    PackageFeed.title ⟨some ⟨"ARM", false⟩, some ⟨"Core"⟩, []⟩
      = .ok "Arch Linux: Recent package updates (ARM [core])" ∧
    PackageFeed.title ⟨some ⟨"ARM", false⟩, some ⟨"Core"⟩, []⟩
      ≠ .ok (specTitleBoth ⟨"ARM", false⟩ ⟨"Core"⟩) := by
  constructor
  · decide
  · decide

/-- C8 amended: the title appends the architecture name verbatim together
with the lowercased repository name when both filters are given (agreeing
with the spec's formula exactly when the architecture name is already
lowercase), or just the architecture name when only that filter is given;
the description lowercases both names and carries the agnostic-inclusion
note exactly when the architecture is not agnostic. -/
theorem C8_amended_metadata (a : Arch) (r : Repo) (qs : List Package) :
    PackageFeed.title ⟨some a, some r, qs⟩
      = .ok ("Arch Linux: Recent package updates" ++ " (" ++ a.name
          ++ " [" ++ strLower r.name ++ "])") ∧
    PackageFeed.title ⟨some a, none, qs⟩
      = .ok ("Arch Linux: Recent package updates" ++ " (" ++ a.name ++ ")") ∧
    PackageFeed.title ⟨none, none, qs⟩
      = .ok "Arch Linux: Recent package updates" ∧
    (strLower a.name = a.name →
      PackageFeed.title ⟨some a, some r, qs⟩ = .ok (specTitleBoth a r)) ∧
    PackageFeed.description ⟨some a, some r, qs⟩ = specDescriptionBoth a r ∧
    PackageFeed.description ⟨some a, none, qs⟩ = specDescriptionArchOnly a ∧
    PackageFeed.description ⟨none, none, qs⟩
      = "Recently updated packages in the Arch Linux package repositories"
          ++ "." := by
  obtain ⟨aname, ag⟩ := a
  refine ⟨rfl, rfl, rfl, ?_, ?_, ?_, rfl⟩
  · intro h
    simp only [specTitleBoth, h]
    rfl
  · cases ag <;> simp [PackageFeed.description, specDescriptionBoth]
  · cases ag <;> simp [PackageFeed.description, specDescriptionArchOnly]

theorem C8_witness :
    PackageFeed.title ⟨some archX86, some repoCore, []⟩
      = .ok ("Arch Linux: Recent package updates" ++ " (" ++ archX86.name
          ++ " [" ++ strLower repoCore.name ++ "])") ∧
    PackageFeed.title ⟨some archX86, some repoCore, []⟩
      = .ok (specTitleBoth archX86 repoCore) ∧
    PackageFeed.description ⟨some archX86, some repoCore, []⟩
      = specDescriptionBoth archX86 repoCore :=
  ⟨(C8_amended_metadata archX86 repoCore []).1,
   (C8_amended_metadata archX86 repoCore []).2.2.2.1 (by decide),
   (C8_amended_metadata archX86 repoCore []).2.2.2.2.1⟩

/-- C9: a named architecture or repository filter that matches no entity
makes `get_object` fail with `DoesNotExist` — never an empty or unfiltered
result. -/
theorem C9_unresolvable_name_fails (w : World) (an rn : String) :
    (an ≠ "" → w.archs.filter (fun a => decide (a.name = an)) = [] →
      PackageFeed.get_object w an rn = .error .doesNotExist) ∧
    (rn ≠ "" → w.repos.filter (fun r => decide (r.name = rn)) = [] →
      (an = "" ∨ ∃ a, objects_get_arch w an = .ok a) →
      PackageFeed.get_object w an rn = .error .doesNotExist) := by
  constructor
  · intro hane hfil
    have ha : objects_get_arch w an = .error .doesNotExist := by
      unfold objects_get_arch
      rw [hfil]
    exact get_object_arch_error w rn hane ha
  · intro hrne hfil harch
    have hr : objects_get_repo w rn = .error .doesNotExist := by
      unfold objects_get_repo
      rw [hfil]
    by_cases hane : an = ""
    · subst hane
      exact get_object_repo_error_no_arch w hrne hr
    · rcases harch with h | ⟨a, ha⟩
      · exact absurd h hane
      · exact get_object_repo_error_arch_ok w hane ha hrne hr

theorem C9_witness :
    PackageFeed.get_object wC9 "sparc" "" = .error .doesNotExist ∧
    PackageFeed.get_object wC9 "" "testing" = .error .doesNotExist :=
  ⟨(C9_unresolvable_name_fails wC9 "sparc" "").1 (by decide) (by decide),
   (C9_unresolvable_name_fails wC9 "" "testing").2 (by decide) (by decide)
     (Or.inl rfl)⟩

/-- C10: with a repository filter alone the returned object records the
repository but no architecture — the filter is applied, not rejected — and
`PackageFeed.title` on that object fails with `KeyError`, since the repo
branch of the title reads the absent `arch` entry. -/
theorem C10_repo_only_breaks_title (w : World) (rn : String) (r : Repo)
    (hrne : rn ≠ "") (hr : objects_get_repo w rn = .ok r) :
    ∃ obj, PackageFeed.get_object w "" rn = .ok obj ∧
      obj.repo = some r ∧ obj.arch = none ∧
      PackageFeed.title obj = .error .keyError :=
  ⟨_, get_object_repo_only w hrne hr, rfl, rfl, rfl⟩

theorem C10_witness :
    ∃ obj, PackageFeed.get_object wC9 "" "core" = .ok obj ∧
      obj.repo = some repoCore ∧ obj.arch = none ∧
      PackageFeed.title obj = .error .keyError :=
  C10_repo_only_breaks_title wC9 "core" repoCore (by decide) (by decide)
